import Mathlib

/-!
Verification of the sourceror compiler's back-end against its specification.

The definitions below are shallow embeddings of the Rust source:
  * `lebSerializeU32` / `lebSerializeI32`  — `impl LebSerialize for u32 / i32`
    in `lib-wasmgen/src/serialize.rs` (machine integers become `Nat` / `Int`;
    the `u32` shift `x >>= 7` is division by 128, the `i32` arithmetic shift
    is floor division by 128, which for the positive divisor 128 coincides
    with Euclidean division, i.e. `Int` `/` here; `x & 127` is `%` 128).
  * the unreachable-elimination pass from `lib-ir/src/opt/unreachable.rs`.
  * the module serializer from `lib-wasmgen/src/serialize.rs`.
  * the `Scratch` local pool from `lib-wasmgen/src/scratch.rs`.
  * `VarLocId` from `lib-frontend-estree/src/estree.rs`.
Parts of the repository that the source tree does not contain (the LEB
decoder, the fixed five-byte LEB implementation, the IR struct definitions)
are modelled from the specification and marked as such.
-/

/-! ## LEB128 encoding (`lib-wasmgen/src/serialize.rs`) -/

/-- Embedding of `impl LebSerialize for u32` (`serialize.rs` lines 549-569):
take the low 7 bits, shift right by 7; emit `b | 0x80` and loop while the
shifted value is nonzero, else emit `b` and stop. -/
def lebSerializeU32 (x : Nat) : List Nat :=
  if x / 128 ≠ 0 then (x % 128 + 128) :: lebSerializeU32 (x / 128) else [x % 128]
decreasing_by simp_all; omega

/-- Embedding of `impl LebSerialize for i32` (`serialize.rs` lines 592-613):
`b = x & 127`, arithmetic shift right by 7 (floor division by 128), continue
while `(x != 0 || b & 64 != 0) && (x != -1 || b & 64 == 0)`. -/
def lebSerializeI32 (x : Int) : List Nat :=
  if (x / 128 ≠ 0 ∨ 64 ≤ x % 128) ∧ (x / 128 ≠ -1 ∨ x % 128 < 64) then
    ((x % 128).toNat + 128) :: lebSerializeI32 (x / 128)
  else
    [(x % 128).toNat]
termination_by x.natAbs
decreasing_by omega

/-- Modelled from the spec: the standard unsigned LEB128 decoder
("7 data bits per byte, MSB = continuation flag"); the repository itself
never decodes, so the round-trip law is stated against this reference
decoder. -/
def lebDecodeUnsigned : List Nat → Nat
  | [] => 0
  | b :: rest => b % 128 + 128 * lebDecodeUnsigned rest

/-- Modelled from the spec: the standard signed LEB128 decoder; the final
byte's 7 data bits are sign-extended (bit 6 is the sign bit). -/
def lebDecodeSigned : List Nat → Int
  | [] => 0
  | [b] => if b % 128 < 64 then ((b % 128 : Nat) : Int) else ((b % 128 : Nat) : Int) - 128
  | b :: rest => ((b % 128 : Nat) : Int) + 128 * lebDecodeSigned rest

/-- The byte-shape of a LEB encoding: every byte except the last has its
most-significant bit (0x80) set, and the last byte has it clear. -/
def lebContinuationShape : List Nat → Bool
  | [] => true
  | [b] => b < 128
  | b :: rest => 128 ≤ b && lebContinuationShape rest

/-- The last emitted byte of an encoding (0 for the empty list). -/
def lastByte (l : List Nat) : Nat :=
  l.getLast?.getD 0

theorem lebSerializeU32_ne_nil (x : Nat) : lebSerializeU32 x ≠ [] := by
  rw [lebSerializeU32]
  split <;> simp

theorem lebSerializeI32_ne_nil (x : Int) : lebSerializeI32 x ≠ [] := by
  rw [lebSerializeI32]
  split <;> simp

theorem lebDecodeUnsigned_lebSerializeU32 (x : Nat) :
    lebDecodeUnsigned (lebSerializeU32 x) = x := by
  induction x using Nat.strong_induction_on with
  | _ x ih =>
    rw [lebSerializeU32]
    by_cases h : x / 128 ≠ 0
    · rw [if_pos h, lebDecodeUnsigned, ih (x / 128) (by omega)]
      omega
    · rw [if_neg h]
      have hd : lebDecodeUnsigned [x % 128] = x % 128 % 128 := rfl
      rw [hd]
      omega

theorem lebContinuationShape_lebSerializeU32 (x : Nat) :
    lebContinuationShape (lebSerializeU32 x) = true := by
  induction x using Nat.strong_induction_on with
  | _ x ih =>
    rw [lebSerializeU32]
    by_cases h : x / 128 ≠ 0
    · rw [if_pos h]
      have hne := lebSerializeU32_ne_nil (x / 128)
      have hih := ih (x / 128) (by omega)
      cases hl : lebSerializeU32 (x / 128) with
      | nil => exact absurd hl hne
      | cons c cs =>
        rw [hl] at hih
        simp [lebContinuationShape, hih]
    · rw [if_neg h]
      simp [lebContinuationShape]
      omega

theorem lebDecodeSigned_single (b : Nat) :
    lebDecodeSigned [b] =
      if b % 128 < 64 then ((b % 128 : Nat) : Int) else ((b % 128 : Nat) : Int) - 128 := rfl

theorem lebDecodeSigned_cons_cons (b c : Nat) (t : List Nat) :
    lebDecodeSigned (b :: c :: t) = ((b % 128 : Nat) : Int) + 128 * lebDecodeSigned (c :: t) := rfl

theorem lebSerializeI32_natAbs_lt (x : Int)
    (hc : (x / 128 ≠ 0 ∨ 64 ≤ x % 128) ∧ (x / 128 ≠ -1 ∨ x % 128 < 64)) :
    (x / 128).natAbs < x.natAbs := by omega

theorem lebDecodeSigned_lebSerializeI32 (x : Int) :
    lebDecodeSigned (lebSerializeI32 x) = x := by
  have H : ∀ n : Nat, ∀ x : Int, x.natAbs ≤ n → lebDecodeSigned (lebSerializeI32 x) = x := by
    intro n
    induction n with
    | zero =>
      intro x hx
      have hx0 : x = 0 := by omega
      subst hx0
      rw [lebSerializeI32]
      norm_num [lebDecodeSigned_single]
    | succ n ih =>
      intro x hx
      rw [lebSerializeI32]
      by_cases hc : (x / 128 ≠ 0 ∨ 64 ≤ x % 128) ∧ (x / 128 ≠ -1 ∨ x % 128 < 64)
      · rw [if_pos hc]
        have hdec := lebSerializeI32_natAbs_lt x hc
        have hih := ih (x / 128) (by omega)
        have hne := lebSerializeI32_ne_nil (x / 128)
        cases hl : lebSerializeI32 (x / 128) with
        | nil => exact absurd hl hne
        | cons c cs =>
          rw [hl] at hih
          rw [lebDecodeSigned_cons_cons, hih]
          omega
      · rw [if_neg hc]
        rw [lebDecodeSigned_single]
        split <;> omega
  exact H x.natAbs x le_rfl

theorem lebContinuationShape_lebSerializeI32 (x : Int) :
    lebContinuationShape (lebSerializeI32 x) = true := by
  have H : ∀ n : Nat, ∀ x : Int, x.natAbs ≤ n →
      lebContinuationShape (lebSerializeI32 x) = true := by
    intro n
    induction n with
    | zero =>
      intro x hx
      have hx0 : x = 0 := by omega
      subst hx0
      rw [lebSerializeI32]
      norm_num [lebContinuationShape]
    | succ n ih =>
      intro x hx
      rw [lebSerializeI32]
      by_cases hc : (x / 128 ≠ 0 ∨ 64 ≤ x % 128) ∧ (x / 128 ≠ -1 ∨ x % 128 < 64)
      · rw [if_pos hc]
        have hdec := lebSerializeI32_natAbs_lt x hc
        have hih := ih (x / 128) (by omega)
        have hne := lebSerializeI32_ne_nil (x / 128)
        cases hl : lebSerializeI32 (x / 128) with
        | nil => exact absurd hl hne
        | cons c cs =>
          rw [hl] at hih
          simp [lebContinuationShape, hih]
      · rw [if_neg hc]
        simp [lebContinuationShape]
        omega
  exact H x.natAbs x le_rfl

theorem lastByte_cons_cons (b c : Nat) (t : List Nat) :
    lastByte (b :: c :: t) = lastByte (c :: t) := by
  simp [lastByte]

theorem lebSerializeI32_signBit (x : Int) :
    (64 ≤ lastByte (lebSerializeI32 x) ↔ x < 0) := by
  have H : ∀ n : Nat, ∀ x : Int, x.natAbs ≤ n →
      (64 ≤ lastByte (lebSerializeI32 x) ↔ x < 0) := by
    intro n
    induction n with
    | zero =>
      intro x hx
      have hx0 : x = 0 := by omega
      subst hx0
      rw [lebSerializeI32]
      norm_num [lastByte]
    | succ n ih =>
      intro x hx
      rw [lebSerializeI32]
      by_cases hc : (x / 128 ≠ 0 ∨ 64 ≤ x % 128) ∧ (x / 128 ≠ -1 ∨ x % 128 < 64)
      · rw [if_pos hc]
        have hdec := lebSerializeI32_natAbs_lt x hc
        have hih := ih (x / 128) (by omega)
        have hne := lebSerializeI32_ne_nil (x / 128)
        cases hl : lebSerializeI32 (x / 128) with
        | nil => exact absurd hl hne
        | cons c cs =>
          rw [hl] at hih
          rw [lastByte_cons_cons, hih]
          omega
      · rw [if_neg hc]
        have hv : lastByte [(x % 128).toNat] = (x % 128).toNat := rfl
        rw [hv]
        omega
  exact H x.natAbs x le_rfl

/-- C1: For every u32 value and every i32 value `x`, LEB128 encoding via
`leb_serialize` terminates (the Lean functions are total) and round-trips:
decoding the emitted bytes yields `x` again; every emitted byte except the
last has its most-significant bit set, the last byte has MSB clear, and for
signed encoding bit 6 of the final byte agrees with the sign of `x`. -/
theorem leb_serialize_roundtrip_u32_i32 (u : Nat) (x : Int)
    (hu : u < 2 ^ 32) (hx1 : -(2 ^ 31) ≤ x) (hx2 : x < 2 ^ 31) :
    lebDecodeUnsigned (lebSerializeU32 u) = u ∧
    lebContinuationShape (lebSerializeU32 u) = true ∧
    lebDecodeSigned (lebSerializeI32 x) = x ∧
    lebContinuationShape (lebSerializeI32 x) = true ∧
    (64 ≤ lastByte (lebSerializeI32 x) ↔ x < 0) :=
  ⟨lebDecodeUnsigned_lebSerializeU32 u,
   lebContinuationShape_lebSerializeU32 u,
   lebDecodeSigned_lebSerializeI32 x,
   lebContinuationShape_lebSerializeI32 x,
   lebSerializeI32_signBit x⟩

/-- Witness for C1 at `u = 300`, `x = -65`. -/
theorem leb_serialize_roundtrip_u32_i32_witness :
    (300 : Nat) < 2 ^ 32 ∧ -(2 ^ 31) ≤ (-65 : Int) ∧ (-65 : Int) < 2 ^ 31 ∧
    (lebDecodeUnsigned (lebSerializeU32 300) = 300 ∧
     lebContinuationShape (lebSerializeU32 300) = true ∧
     lebDecodeSigned (lebSerializeI32 (-65)) = -65 ∧
     lebContinuationShape (lebSerializeI32 (-65)) = true ∧
     (64 ≤ lastByte (lebSerializeI32 (-65)) ↔ (-65 : Int) < 0)) :=
  ⟨by norm_num, by norm_num, by norm_num,
   leb_serialize_roundtrip_u32_i32 300 (-65) (by norm_num) (by norm_num) (by norm_num)⟩

/-! ## Fixed five-byte LEB (`LebSerialize5Byte`)

The source tree declares the trait `LebSerialize5Byte` (`serialize.rs` lines
35-41 and `src/wasmgen/mod.rs` lines 101-103) but contains no implementation
of `leb_serialize_5_byte`, so the encoder is modelled from the spec. -/

/-- Modelled from the spec: the missing `impl LebSerialize5Byte for u32` —
"emit exactly five bytes, with `0x80` continuation on the first four and the
final byte carrying the remaining bits zero-extended".
(16384 = 128^2, 2097152 = 128^3, 268435456 = 128^4.) -/
def lebSerialize5ByteU32 (x : Nat) : List Nat :=
  [x % 128 + 128, x / 128 % 128 + 128, x / 16384 % 128 + 128, x / 2097152 % 128 + 128,
    x / 268435456]

/-- Modelled from the spec: the missing `impl LebSerialize5Byte for i32` —
"emit exactly five bytes, with `0x80` continuation on the first four and the
final byte carrying the remaining bits sign-extended". -/
def lebSerialize5ByteI32 (x : Int) : List Nat :=
  [(x % 128).toNat + 128, (x / 128 % 128).toNat + 128, (x / 16384 % 128).toNat + 128,
    (x / 2097152 % 128).toNat + 128, (x / 268435456 % 128).toNat]

set_option maxHeartbeats 1000000 in
/-- C7: For every `x` of type i32 or u32, the fixed-width 5-byte LEB encoding
`leb_serialize_5_byte` emits exactly five bytes, with the 0x80 continuation
bit set on the first four bytes (and MSB clear on the fifth), and decoding
those bytes yields `x` again. -/
theorem leb_serialize_5_byte_exact (u : Nat) (x : Int)
    (hu : u < 2 ^ 32) (hx1 : -(2 ^ 31) ≤ x) (hx2 : x < 2 ^ 31) :
    (lebSerialize5ByteU32 u).length = 5 ∧
    lebContinuationShape (lebSerialize5ByteU32 u) = true ∧
    lebDecodeUnsigned (lebSerialize5ByteU32 u) = u ∧
    (lebSerialize5ByteI32 x).length = 5 ∧
    lebContinuationShape (lebSerialize5ByteI32 x) = true ∧
    lebDecodeSigned (lebSerialize5ByteI32 x) = x := by
  refine ⟨rfl, ?_, ?_, rfl, ?_, ?_⟩
  · simp [lebSerialize5ByteU32, lebContinuationShape]
    omega
  · simp [lebSerialize5ByteU32, lebDecodeUnsigned]
    omega
  · simp [lebSerialize5ByteI32, lebContinuationShape]
    omega
  · rw [lebSerialize5ByteI32, lebDecodeSigned_cons_cons, lebDecodeSigned_cons_cons,
      lebDecodeSigned_cons_cons, lebDecodeSigned_cons_cons, lebDecodeSigned_single]
    by_cases h : (x / 268435456 % 128).toNat % 128 < 64
    · rw [if_pos h]
      omega
    · rw [if_neg h]
      omega

/-- Witness for C7 at `u = 300`, `x = -65`. -/
theorem leb_serialize_5_byte_exact_witness :
    (300 : Nat) < 2 ^ 32 ∧ -(2 ^ 31) ≤ (-65 : Int) ∧ (-65 : Int) < 2 ^ 31 ∧
    ((lebSerialize5ByteU32 300).length = 5 ∧
     lebContinuationShape (lebSerialize5ByteU32 300) = true ∧
     lebDecodeUnsigned (lebSerialize5ByteU32 300) = 300 ∧
     (lebSerialize5ByteI32 (-65)).length = 5 ∧
     lebContinuationShape (lebSerialize5ByteI32 (-65)) = true ∧
     lebDecodeSigned (lebSerialize5ByteI32 (-65)) = -65) :=
  ⟨by norm_num, by norm_num, by norm_num,
   leb_serialize_5_byte_exact 300 (-65) (by norm_num) (by norm_num) (by norm_num)⟩

/-! ## IR data model and the unreachable-elimination pass
(`lib-ir/src/opt/unreachable.rs`)

The pass's code is in the source tree; the IR struct definitions it operates
on are not, so `VarType`, `Expr`, `ExprKind`, `Func` and `Program` are
modelled from the spec (section 3.3) and from the constructors the pass
matches on. -/

/-- Modelled from the spec: the widened static types
("Any, Number, Boolean, String, Undefined, Func, StructRef"). -/
inductive VarType where
  | any
  | number
  | boolean
  | string
  | undefined
  | func
  | structRef (idx : Nat)
deriving DecidableEq

mutual
/-- Modelled from the spec: an IR expression is
`{vartype: Option<VarType>, kind: ExprKind}`; `vartype = none` is the empty
type (the expression never yields a value). -/
inductive Expr where
  | mk (vartype : Option VarType) (kind : ExprKind)

/-- Modelled from the spec: the `ExprKind` variants of section 3.3, with the
payloads the unreachable pass matches on. -/
inductive ExprKind where
  | primUndefined
  | primNumber (val : Int)
  | primBoolean (val : Bool)
  | primString (val : List Nat)
  | primFunc (funcidxs : List Nat) (closure : Expr)
  | typeCast (test : Expr) (expected : VarType) (create_narrow_local : Bool)
      (true_expr : Expr) (false_expr : Expr)
  | primAppl (prim_inst : Nat) (args : List Expr)
  | appl (func : Expr) (args : List Expr)
  | directAppl (funcidx : Nat) (args : List Expr)
  | conditional (cond : Expr) (true_expr : Expr) (false_expr : Expr)
  | declaration (loc : Nat) (expr : Expr)
  | assign (target : Nat) (expr : Expr)
  | returnExpr (expr : Expr)
  | sequence (content : List Expr)
  | varName (target : Nat)
  | breakExpr (target : Nat)
  | trap
  | importFn (idx : Nat)
end

/-- The `vartype` field of an expression. -/
def Expr.vartype : Expr → Option VarType
  | .mk vt _ => vt

/-- The `kind` field of an expression. -/
def Expr.kind : Expr → ExprKind
  | .mk _ k => k

mutual
/-- Embedding of `optimize_expr` (`unreachable.rs` lines 26-96).  The Rust
function mutates `expr` in place and returns the `changed` flag; here it
returns the new expression paired with the flag.  Each arm mirrors the
corresponding `match` arm of the source; the final catch-all is the Rust
`_ => false`. -/
def optimizeExpr : Expr → Expr × Bool
  | .mk vt k =>
    match k with
    | .primFunc funcidxs closure =>
        let r := optimizeExpr closure
        (.mk vt (.primFunc funcidxs r.1), r.2)
    | .typeCast test expected cnl te fe =>
        let r1 := optimizeExpr test
        let r2 := optimizeExpr te
        let r3 := optimizeExpr fe
        (.mk vt (.typeCast r1.1 expected cnl r2.1 r3.1), r1.2 || r2.2 || r3.2)
    | .primAppl pi args =>
        let r := optimizeExprList args
        (.mk vt (.primAppl pi r.1), r.2)
    | .appl f args =>
        let r1 := optimizeExpr f
        let r2 := optimizeExprList args
        (.mk vt (.appl r1.1 r2.1), r1.2 || r2.2)
    | .directAppl fi args =>
        let r := optimizeExprList args
        (.mk vt (.directAppl fi r.1), r.2)
    | .conditional cond te fe =>
        let r1 := optimizeExpr cond
        let r2 := optimizeExpr te
        let r3 := optimizeExpr fe
        (.mk vt (.conditional r1.1 r2.1 r3.1), r1.2 || r2.2 || r3.2)
    | .declaration l e =>
        let r := optimizeExpr e
        (.mk r.1.vartype (.declaration l r.1), r.2)
    | .assign t e =>
        let r := optimizeExpr e
        (.mk vt (.assign t r.1), r.2)
    | .returnExpr e =>
        let r := optimizeExpr e
        (.mk vt (.returnExpr r.1), r.2)
    | .sequence content =>
        let r := optimizeSeq content
        ((.mk (match r.1.getLast? with
               | some e => e.vartype
               | none => none) (.sequence r.1)),
          r.2 || (r.1.length != content.length))
    | k => (.mk vt k, false)

/-- Embedding of the `fold` over argument lists in the `PrimAppl` / `Appl` /
`DirectAppl` arms: optimize every element, or the changed flags. -/
def optimizeExprList : List Expr → List Expr × Bool
  | [] => ([], false)
  | e :: rest =>
      let r1 := optimizeExpr e
      let r2 := optimizeExprList rest
      (r1.1 :: r2.1, r1.2 || r2.2)

/-- Embedding of the `for` loop in the `Sequence` arm (`unreachable.rs`
lines 79-86): optimize elements in order, push each one, and stop (dropping
the unprocessed remainder) right after the first element whose `vartype` is
`none`. -/
def optimizeSeq : List Expr → List Expr × Bool
  | [] => ([], false)
  | e :: rest =>
      let r := optimizeExpr e
      if r.1.vartype = none then ([r.1], r.2)
      else
        let r2 := optimizeSeq rest
        (r.1 :: r2.1, r.2 || r2.2)
end

/-- Modelled from the spec: an import entry of the IR program (its fields
play no role in the unreachable pass). -/
structure IrImport where
  module_name : List Nat
  entity_name : List Nat

/-- Modelled from the spec: "A Func has a result type and a root Expr";
parameter types are carried along as an untouched field. -/
structure Func where
  params : List VarType
  result : Option VarType
  expr : Expr

/-- Modelled from the spec: "Program = list of functions plus imports plus
struct-type table plus entry function index". -/
structure Program where
  struct_types : List (List VarType)
  imports : List IrImport
  entry_point : Nat
  funcs : List Func

/-- Embedding of `optimize_func` (`unreachable.rs` lines 22-24): only the
root expression of the function is rewritten. -/
def optimizeFunc (f : Func) : Func × Bool :=
  let r := optimizeExpr f.expr
  ({ f with expr := r.1 }, r.2)

/-- Embedding of `optimize` (`unreachable.rs` lines 10-16): optimize every
function in order and or together the changed flags. -/
def optimize (p : Program) : Program × Bool :=
  let rs := p.funcs.map optimizeFunc
  ({ p with funcs := rs.map Prod.fst }, rs.any Prod.snd)

/-- Spec-side description of the `Sequence` rule, written from the spec's
words: "traverse elements in order; after the first element whose
`vartype = None`, drop all following elements".  Stated over an
already-optimized element list and compared with `optimizeSeq` below. -/
def retainUntilNone : List Expr → List Expr
  | [] => []
  | e :: rest => if e.vartype = none then [e] else e :: retainUntilNone rest

/-- The `vartype` the pass assigns to a rewritten `Sequence`: the `vartype`
of the last retained element (`none` for an empty list). -/
def lastRetainedVartype (l : List Expr) : Option VarType :=
  match l.getLast? with
  | some e => e.vartype
  | none => none

theorem optimizeSeq_fst (l : List Expr) :
    (optimizeSeq l).1 = retainUntilNone (l.map fun e => (optimizeExpr e).1) := by
  induction l with
  | nil => rfl
  | cons e rest ih =>
    rw [optimizeSeq]
    by_cases h : (optimizeExpr e).1.vartype = none
    · simp [retainUntilNone, h]
    · simp [retainUntilNone, h, ih]

theorem optimizeExpr_sequence (vt : Option VarType) (content : List Expr) :
    optimizeExpr (.mk vt (.sequence content)) =
      (.mk (lastRetainedVartype (optimizeSeq content).1) (.sequence (optimizeSeq content).1),
        (optimizeSeq content).2 || ((optimizeSeq content).1.length != content.length)) := by
  rw [optimizeExpr, lastRetainedVartype]

theorem retainUntilNone_dropped_preceded (l : List Expr) :
    ∀ i, i < l.length → (retainUntilNone l).length ≤ i →
      ∃ j, ∃ hj : j < l.length, j < i ∧ (l.get ⟨j, hj⟩).vartype = none := by
  induction l with
  | nil =>
    intro i hi
    simp at hi
  | cons e rest ih =>
    intro i hi hlen
    by_cases h : e.vartype = none
    · have h1 : 1 ≤ i := by
        simp [retainUntilNone, h] at hlen
        omega
      exact ⟨0, by simp, by omega, by simpa using h⟩
    · have hlen' : (retainUntilNone rest).length ≤ i - 1 := by
        simp [retainUntilNone, h] at hlen
        omega
      have h1 : 1 ≤ i := by
        simp [retainUntilNone, h] at hlen
        omega
      have hi' : i - 1 < rest.length := by
        simp at hi
        omega
      obtain ⟨j, hj, hji, hnone⟩ := ih (i - 1) hi' hlen'
      exact ⟨j + 1, by simp; omega, by omega, by simpa using hnone⟩

/-- C2: For every `Sequence` expression, the unreachable-elimination pass
keeps elements in order up to and including the first element whose
`vartype` is `none` after recursion, drops all elements after it, and sets
the `Sequence`'s `vartype` to the `vartype` of the last retained element;
consequently every removed sub-expression was preceded in its `Sequence` by
a sibling with `vartype = none`. -/
theorem optimize_sequence_drops_after_none (vt : Option VarType) (content : List Expr) :
    (optimizeExpr (.mk vt (.sequence content))).1 =
      .mk (lastRetainedVartype (retainUntilNone (content.map fun e => (optimizeExpr e).1)))
        (.sequence (retainUntilNone (content.map fun e => (optimizeExpr e).1))) ∧
    (∀ i, i < content.length →
      (retainUntilNone (content.map fun e => (optimizeExpr e).1)).length ≤ i →
      ∃ j, ∃ hj : j < content.length, j < i ∧
        ((content.map fun e => (optimizeExpr e).1).get ⟨j, by simpa using hj⟩).vartype = none) := by
  constructor
  · rw [optimizeExpr_sequence]
    rw [optimizeSeq_fst]
  · intro i hi hlen
    obtain ⟨j, hj, hji, hnone⟩ :=
      retainUntilNone_dropped_preceded (content.map fun e => (optimizeExpr e).1) i
        (by simpa using hi) hlen
    exact ⟨j, by simpa using hj, hji, hnone⟩

/-- Witness for C2: a two-element sequence whose first element has
`vartype = none`; the pass drops the second element, and the dropped
element (index 1) is preceded by the sibling at index 0 with
`vartype = none`. -/
theorem optimize_sequence_drops_after_none_witness :
    ((optimizeExpr (.mk (some .any)
        (.sequence [.mk none .trap, .mk (some .any) .trap]))).1 =
      .mk (lastRetainedVartype (retainUntilNone
            ([Expr.mk none .trap, .mk (some .any) .trap].map fun e => (optimizeExpr e).1)))
        (.sequence (retainUntilNone
            ([Expr.mk none .trap, .mk (some .any) .trap].map fun e => (optimizeExpr e).1)))) ∧
    (∃ j, ∃ hj : j < ([Expr.mk none .trap, .mk (some .any) .trap] : List Expr).length, j < 1 ∧
      (([Expr.mk none .trap, .mk (some .any) .trap].map
          fun e => (optimizeExpr e).1).get ⟨j, by simpa using hj⟩).vartype = none) :=
  ⟨(optimize_sequence_drops_after_none (some .any)
      [.mk none .trap, .mk (some .any) .trap]).1,
   (optimize_sequence_drops_after_none (some .any)
      [.mk none .trap, .mk (some .any) .trap]).2 1 (by simp)
      (by simp [optimizeExpr, retainUntilNone, Expr.vartype])⟩

/-! ## The `changed` flag (C6) and idempotence (C5) -/

mutual
/-- Number of IR expression nodes in an expression (the `vartype`
annotations do not contribute). -/
def exprCount : Expr → Nat
  | .mk _ k => 1 + kindCount k

/-- Number of IR expression nodes below an `ExprKind`. -/
def kindCount : ExprKind → Nat
  | .primFunc _ c => exprCount c
  | .typeCast t _ _ te fe => exprCount t + exprCount te + exprCount fe
  | .primAppl _ args => exprListCount args
  | .appl f args => exprCount f + exprListCount args
  | .directAppl _ args => exprListCount args
  | .conditional c te fe => exprCount c + exprCount te + exprCount fe
  | .declaration _ e => exprCount e
  | .assign _ e => exprCount e
  | .returnExpr e => exprCount e
  | .sequence l => exprListCount l
  | _ => 0

/-- Number of IR expression nodes in a list of expressions. -/
def exprListCount : List Expr → Nat
  | [] => 0
  | e :: rest => exprCount e + exprListCount rest
end

/-- Number of IR expression nodes in a whole program. -/
def programExprCount (p : Program) : Nat :=
  (p.funcs.map fun f => exprCount f.expr).sum

theorem exprCount_pos (e : Expr) : 1 ≤ exprCount e := by
  cases e with
  | mk vt k => rw [exprCount]; omega

theorem exprListCount_ge_length (l : List Expr) : l.length ≤ exprListCount l := by
  induction l with
  | nil => simp [exprListCount]
  | cons e rest ih =>
    rw [exprListCount]
    have := exprCount_pos e
    simp only [List.length_cons]
    omega

theorem decide_lt_or_add (a b c d : Nat) (h1 : a ≤ b) (h2 : c ≤ d) :
    (decide (a < b) || decide (c < d)) = decide (a + c < b + d) := by
  by_cases p : a < b <;> by_cases q : c < d <;> simp [p, q] <;> omega

theorem optimizeExpr_count (e : Expr) :
    exprCount (optimizeExpr e).1 ≤ exprCount e ∧
    (optimizeExpr e).2 = decide (exprCount (optimizeExpr e).1 < exprCount e) := by
  refine optimizeExpr.induct
    (fun e => exprCount (optimizeExpr e).1 ≤ exprCount e ∧
      (optimizeExpr e).2 = decide (exprCount (optimizeExpr e).1 < exprCount e))
    (fun l =>
      (optimizeSeq l).1.length ≤ l.length ∧
      exprListCount (optimizeSeq l).1 ≤ exprListCount l ∧
      ((optimizeSeq l).1.length < l.length → exprListCount (optimizeSeq l).1 < exprListCount l) ∧
      ((optimizeSeq l).1.length = l.length →
        (optimizeSeq l).2 = decide (exprListCount (optimizeSeq l).1 < exprListCount l)))
    (fun l =>
      exprListCount (optimizeExprList l).1 ≤ exprListCount l ∧
      (optimizeExprList l).2 = decide (exprListCount (optimizeExprList l).1 < exprListCount l))
    ?_ ?_ ?_ ?_ ?_ ?_ ?_ ?_ ?_ ?_ ?_ ?_ ?_ ?_ ?_ ?_ e
  · -- primFunc
    intro vt funcidxs closure ih
    obtain ⟨h1, h2⟩ := ih
    simp only [optimizeExpr, exprCount, kindCount]
    constructor
    · omega
    · rw [h2]
      rw [decide_eq_decide]
      omega
  · -- typeCast
    intro vt test expected cnl te fe ih1 ih2 ih3
    obtain ⟨a1, a2⟩ := ih1
    obtain ⟨b1, b2⟩ := ih2
    obtain ⟨c1, c2⟩ := ih3
    simp only [optimizeExpr, exprCount, kindCount]
    constructor
    · omega
    · rw [a2, b2, c2, decide_lt_or_add _ _ _ _ a1 b1,
        decide_lt_or_add _ _ _ _ (Nat.add_le_add a1 b1) c1, decide_eq_decide]
      omega
  · -- primAppl
    intro vt pi args ih
    obtain ⟨h1, h2⟩ := ih
    simp only [optimizeExpr, exprCount, kindCount]
    constructor
    · omega
    · rw [h2, decide_eq_decide]
      omega
  · -- appl
    intro vt f args ih1 ih2
    obtain ⟨a1, a2⟩ := ih1
    obtain ⟨b1, b2⟩ := ih2
    simp only [optimizeExpr, exprCount, kindCount]
    constructor
    · omega
    · rw [a2, b2, decide_lt_or_add _ _ _ _ a1 b1, decide_eq_decide]
      omega
  · -- directAppl
    intro vt fi args ih
    obtain ⟨h1, h2⟩ := ih
    simp only [optimizeExpr, exprCount, kindCount]
    constructor
    · omega
    · rw [h2, decide_eq_decide]
      omega
  · -- conditional
    intro vt cond te fe ih1 ih2 ih3
    obtain ⟨a1, a2⟩ := ih1
    obtain ⟨b1, b2⟩ := ih2
    obtain ⟨c1, c2⟩ := ih3
    simp only [optimizeExpr, exprCount, kindCount]
    constructor
    · omega
    · rw [a2, b2, c2, decide_lt_or_add _ _ _ _ a1 b1,
        decide_lt_or_add _ _ _ _ (Nat.add_le_add a1 b1) c1, decide_eq_decide]
      omega
  · -- declaration
    intro vt l e ih
    obtain ⟨h1, h2⟩ := ih
    simp only [optimizeExpr, exprCount, kindCount]
    constructor
    · omega
    · rw [h2, decide_eq_decide]
      omega
  · -- assign
    intro vt t e ih
    obtain ⟨h1, h2⟩ := ih
    simp only [optimizeExpr, exprCount, kindCount]
    constructor
    · omega
    · rw [h2, decide_eq_decide]
      omega
  · -- returnExpr
    intro vt e ih
    obtain ⟨h1, h2⟩ := ih
    simp only [optimizeExpr, exprCount, kindCount]
    constructor
    · omega
    · rw [h2, decide_eq_decide]
      omega
  · -- sequence
    intro vt content ih
    obtain ⟨hlen, hle, hstrict, heq⟩ := ih
    simp only [optimizeExpr, exprCount, kindCount]
    by_cases h : (optimizeSeq content).1.length = content.length
    · have hbne : ((optimizeSeq content).1.length != content.length) = false := by
        simp [h]
      rw [hbne, Bool.or_false, heq h, decide_eq_decide]
      constructor
      · omega
      · omega
    · have hbne : ((optimizeSeq content).1.length != content.length) = true := by
        simp [h]
      have hlt : exprListCount (optimizeSeq content).1 < exprListCount content :=
        hstrict (by omega)
      rw [hbne, Bool.or_true]
      constructor
      · omega
      · rw [eq_comm, decide_eq_true_eq]
        omega
  · -- catch-all
    intro vt k hn1 hn2 hn3 hn4 hn5 hn6 hn7 hn8 hn9 hn10
    cases k with
    | primFunc a b => exact absurd rfl (hn1 a b)
    | typeCast a b c d f => exact absurd rfl (hn2 a b c d f)
    | primAppl a b => exact absurd rfl (hn3 a b)
    | appl a b => exact absurd rfl (hn4 a b)
    | directAppl a b => exact absurd rfl (hn5 a b)
    | conditional a b c => exact absurd rfl (hn6 a b c)
    | declaration a b => exact absurd rfl (hn7 a b)
    | assign a b => exact absurd rfl (hn8 a b)
    | returnExpr a => exact absurd rfl (hn9 a)
    | sequence a => exact absurd rfl (hn10 a)
    | primUndefined => simp [optimizeExpr, exprCount, kindCount]
    | primNumber v => simp [optimizeExpr, exprCount, kindCount]
    | primBoolean v => simp [optimizeExpr, exprCount, kindCount]
    | primString v => simp [optimizeExpr, exprCount, kindCount]
    | varName v => simp [optimizeExpr, exprCount, kindCount]
    | breakExpr v => simp [optimizeExpr, exprCount, kindCount]
    | trap => simp [optimizeExpr, exprCount, kindCount]
    | importFn v => simp [optimizeExpr, exprCount, kindCount]
  · -- optimizeSeq nil
    simp [optimizeSeq, exprListCount]
  · -- optimizeSeq cons, vartype none
    intro e rest r hnone ih
    obtain ⟨h1, h2⟩ := ih
    simp only [optimizeSeq, hnone, if_true, if_false, ite_true, ite_false, exprListCount,
      List.length_cons, List.length_nil]
    have hge := exprListCount_ge_length rest
    have hpos := exprCount_pos e
    refine ⟨by omega, by omega, ?_, ?_⟩
    · intro hlt
      omega
    · intro hl
      have hrest : rest.length = 0 := by omega
      have hrnil : rest = [] := List.length_eq_zero.mp hrest
      subst hrnil
      rw [exprListCount]
      rw [h2, decide_eq_decide]
      simp [exprListCount]
  · -- optimizeSeq cons, vartype not none
    intro e rest r hnone ih ihrest
    obtain ⟨h1, h2⟩ := ih
    obtain ⟨hlen, hle, hstrict, heq⟩ := ihrest
    simp only [optimizeSeq, hnone, if_true, if_false, ite_true, ite_false, exprListCount,
      List.length_cons, List.length_nil]
    refine ⟨by omega, by omega, ?_, ?_⟩
    · intro hlt
      have := hstrict (by omega)
      omega
    · intro hl
      rw [h2, heq (by omega), decide_lt_or_add _ _ _ _ h1 hle]
  · -- optimizeExprList nil
    simp [optimizeExprList, exprListCount]
  · -- optimizeExprList cons
    intro e rest ih ihrest
    obtain ⟨h1, h2⟩ := ih
    obtain ⟨h3, h4⟩ := ihrest
    simp only [optimizeExprList, exprListCount]
    refine ⟨by omega, ?_⟩
    rw [h2, h4, decide_lt_or_add _ _ _ _ h1 h3]

theorem optimizeExpr_idem (e : Expr) :
    optimizeExpr (optimizeExpr e).1 = ((optimizeExpr e).1, false) := by
  refine optimizeExpr.induct
    (fun e => optimizeExpr (optimizeExpr e).1 = ((optimizeExpr e).1, false))
    (fun l => optimizeSeq (optimizeSeq l).1 = ((optimizeSeq l).1, false))
    (fun l => optimizeExprList (optimizeExprList l).1 = ((optimizeExprList l).1, false))
    ?_ ?_ ?_ ?_ ?_ ?_ ?_ ?_ ?_ ?_ ?_ ?_ ?_ ?_ ?_ ?_ e
  · intro vt funcidxs closure ih
    simp [optimizeExpr, ih]
  · intro vt test expected cnl te fe ih1 ih2 ih3
    simp [optimizeExpr, ih1, ih2, ih3]
  · intro vt pi args ih
    simp [optimizeExpr, ih]
  · intro vt f args ih1 ih2
    simp [optimizeExpr, ih1, ih2]
  · intro vt fi args ih
    simp [optimizeExpr, ih]
  · intro vt cond te fe ih1 ih2 ih3
    simp [optimizeExpr, ih1, ih2, ih3]
  · intro vt l e ih
    simp [optimizeExpr, ih]
  · intro vt t e ih
    simp [optimizeExpr, ih]
  · intro vt e ih
    simp [optimizeExpr, ih]
  · intro vt content ih
    simp [optimizeExpr, ih]
  · intro vt k hn1 hn2 hn3 hn4 hn5 hn6 hn7 hn8 hn9 hn10
    cases k with
    | primFunc a b => exact absurd rfl (hn1 a b)
    | typeCast a b c d f => exact absurd rfl (hn2 a b c d f)
    | primAppl a b => exact absurd rfl (hn3 a b)
    | appl a b => exact absurd rfl (hn4 a b)
    | directAppl a b => exact absurd rfl (hn5 a b)
    | conditional a b c => exact absurd rfl (hn6 a b c)
    | declaration a b => exact absurd rfl (hn7 a b)
    | assign a b => exact absurd rfl (hn8 a b)
    | returnExpr a => exact absurd rfl (hn9 a)
    | sequence a => exact absurd rfl (hn10 a)
    | primUndefined => simp [optimizeExpr]
    | primNumber v => simp [optimizeExpr]
    | primBoolean v => simp [optimizeExpr]
    | primString v => simp [optimizeExpr]
    | varName v => simp [optimizeExpr]
    | breakExpr v => simp [optimizeExpr]
    | trap => simp [optimizeExpr]
    | importFn v => simp [optimizeExpr]
  · simp [optimizeSeq]
  · intro e rest r hnone ih
    simp only [optimizeSeq, hnone, if_true, if_false, ite_true, ite_false]
    simp [optimizeSeq, hnone, ih]
  · intro e rest r hnone ih ihrest
    simp only [optimizeSeq, hnone, if_true, if_false, ite_true, ite_false]
    simp [optimizeSeq, hnone, ih, ihrest]
  · simp [optimizeExprList]
  · intro e rest ih ihrest
    simp [optimizeExprList, ih, ihrest]

theorem optimizeFunc_idem (f : Func) :
    optimizeFunc (optimizeFunc f).1 = ((optimizeFunc f).1, false) := by
  simp [optimizeFunc, optimizeExpr_idem f.expr]

/-- C5: the unreachable-elimination pass is idempotent: for every program
`p`, `optimize` applied to the program returned by `optimize p` returns that
same program, and this second run reports `changed = false`. -/
theorem optimize_idem (p : Program) :
    optimize (optimize p).1 = ((optimize p).1, false) := by
  simp only [optimize, List.map_map, Function.comp_def]
  rw [Prod.mk.injEq]
  constructor
  · simp only [Program.mk.injEq]
    refine ⟨trivial, trivial, trivial, ?_⟩
    apply List.map_congr_left
    intro f _
    rw [optimizeFunc_idem f]
  · rw [List.any_eq_false]
    intro x hx
    simp only [List.mem_map] at hx
    obtain ⟨f, _, hfx⟩ := hx
    rw [optimizeFunc_idem f] at hfx
    rw [← hfx]
    simp

theorem optimize_funcs_count (fs : List Func) :
    (((fs.map optimizeFunc).map Prod.fst).map (fun f => exprCount f.expr)).sum ≤
      (fs.map (fun f => exprCount f.expr)).sum ∧
    (fs.map optimizeFunc).any Prod.snd =
      decide ((((fs.map optimizeFunc).map Prod.fst).map (fun f => exprCount f.expr)).sum <
        (fs.map (fun f => exprCount f.expr)).sum) := by
  induction fs with
  | nil => simp
  | cons f rest ih =>
    obtain ⟨h1, h2⟩ := ih
    obtain ⟨c1, c2⟩ := optimizeExpr_count f.expr
    have hf : (optimizeFunc f).1.expr = (optimizeExpr f.expr).1 := by simp [optimizeFunc]
    have hs : (optimizeFunc f).2 = (optimizeExpr f.expr).2 := by simp [optimizeFunc]
    simp only [List.map_cons, List.sum_cons, List.any_cons, hf, hs]
    rw [h2, c2]
    exact ⟨Nat.add_le_add c1 h1, decide_lt_or_add _ _ _ _ c1 h1⟩

/-- C6 (amended): the `changed` flag returned by `optimize p` is true iff
the pass strictly decreased the number of IR expression nodes, i.e. iff some
`Sequence` element was actually dropped; a propagated `vartype` update alone
does not set the flag. -/
theorem optimize_changed_iff_node_dropped (p : Program) :
    ((optimize p).2 = true ↔ programExprCount (optimize p).1 < programExprCount p) := by
  obtain ⟨h1, h2⟩ := optimize_funcs_count p.funcs
  simp only [optimize, programExprCount]
  rw [h2]
  simp

/-- The program that refutes the literal reading of C6: a single function
whose root expression is a `Declaration` carrying `vartype = Any` around an
inner expression of `vartype = Undefined`. -/
def declVartypeProgram : Program :=
  ⟨[], [], 0,
    [⟨[], some .undefined,
      .mk (some .any) (.declaration 0 (.mk (some .undefined) .primUndefined))⟩]⟩

/-- Counterexample to C6 as stated: on `declVartypeProgram` the pass
performs a propagated `vartype` update (the `Declaration`'s `vartype`
changes from `Any` to `Undefined`), yet `changed = false`. -/
theorem optimize_changed_flag_counterexample :
    (optimize declVartypeProgram).2 = false ∧
    ((optimize declVartypeProgram).1.funcs.map fun f => f.expr.vartype) =
      [some .undefined] ∧
    (declVartypeProgram.funcs.map fun f => f.expr.vartype) = [some .any] := by
  refine ⟨?_, ?_, ?_⟩ <;>
    simp [optimize, optimizeFunc, optimizeExpr, declVartypeProgram, Expr.vartype]

/-- C10: `optimize` returns a program with the same imports, struct-type
table, entry function index, and the same number of functions in the same
order; for each function only its root expression tree is modified (its
parameter and result types are unchanged). -/
theorem optimize_preserves_frame (p : Program) :
    (optimize p).1.struct_types = p.struct_types ∧
    (optimize p).1.imports = p.imports ∧
    (optimize p).1.entry_point = p.entry_point ∧
    (optimize p).1.funcs.length = p.funcs.length ∧
    (∀ i, ∀ hi : i < p.funcs.length, ∀ hi2 : i < (optimize p).1.funcs.length,
      ((optimize p).1.funcs)[i].params = (p.funcs)[i].params ∧
      ((optimize p).1.funcs)[i].result = (p.funcs)[i].result ∧
      ((optimize p).1.funcs)[i].expr = (optimizeExpr (p.funcs)[i].expr).1) := by
  refine ⟨rfl, rfl, rfl, by simp [optimize], ?_⟩
  intro i hi hi2
  simp [optimize, optimizeFunc]

/-- Witness for C10 at a one-function program with non-trivial frame
fields, index 0. -/
theorem optimize_preserves_frame_witness :
    ((optimize ⟨[[VarType.number]], [⟨[7], [8]⟩], 0,
        [⟨[.any], some .any, .mk (some .any) .trap⟩]⟩).1.funcs)[0].result = some .any := by
  have h := optimize_preserves_frame
    ⟨[[VarType.number]], [⟨[7], [8]⟩], 0, [⟨[.any], some .any, .mk (some .any) .trap⟩]⟩
  have h2 := (h.2.2.2.2 0 (by simp) (by simp [optimize])).2.1
  rw [h2]
  rfl

/-! ## Wasm module model and serializer (`lib-wasmgen/src/serialize.rs`)

The section structs are not in the source tree; their `content` fields are
modelled from how `serialize.rs` consumes them (for the Type section the
searchable-vec wrapper is modelled by its underlying vector, which is all
serialization reads).  Bytes are `Nat` values below 256. -/

/-- Wasm value types with their binary tags
(`i32=0x7F`, `i64=0x7E`, `f32=0x7D`, `f64=0x7C`). -/
inductive ValType where
  | i32
  | i64
  | f32
  | f64
deriving DecidableEq

/-- `ValType::value` — the type's binary tag. -/
def ValType.value : ValType → Nat
  | .i32 => 0x7F
  | .i64 => 0x7E
  | .f32 => 0x7D
  | .f64 => 0x7C

/-- Embedding of `impl WasmSerialize for [T]`: LEB length then elements. -/
def serializeVec (ser : α → List Nat) (l : List α) : List Nat :=
  lebSerializeU32 l.length ++ (l.map ser).flatten

/-- Embedding of `impl WasmSerialize for str`: LEB byte length then the
UTF-8 bytes (strings are carried as their byte lists). -/
def serializeName (s : List Nat) : List Nat :=
  lebSerializeU32 s.length ++ s

structure FuncType where
  param_types : List ValType
  result_types : List ValType

/-- `impl WasmSerialize for FuncType`: the `0x60` tag, then the parameter
and result type vectors. -/
def FuncType.serialize (ft : FuncType) : List Nat :=
  0x60 :: (serializeVec (fun v => [v.value]) ft.param_types ++
    serializeVec (fun v => [v.value]) ft.result_types)

inductive ElemType where
  | funcRef

/-- `impl WasmSerialize for ElemType`: `FuncRef` is `0x70`. -/
def ElemType.serialize : ElemType → List Nat
  | .funcRef => [0x70]

inductive Limits where
  | unbounded (min : Nat)
  | bounded (min : Nat) (max : Nat)

/-- `impl WasmSerialize for Limits`: tag `0x00`/`0x01` then the bounds. -/
def Limits.serialize : Limits → List Nat
  | .unbounded min => 0x00 :: lebSerializeU32 min
  | .bounded min max => 0x01 :: (lebSerializeU32 min ++ lebSerializeU32 max)

structure TableType where
  elem_type : ElemType
  limits : Limits

def TableType.serialize (t : TableType) : List Nat :=
  t.elem_type.serialize ++ t.limits.serialize

structure MemType where
  limits : Limits

def MemType.serialize (m : MemType) : List Nat :=
  m.limits.serialize

inductive Mut where
  | const
  | var

/-- `impl WasmSerialize for Mut`: `0x00` for const, `0x01` for var. -/
def Mut.serialize : Mut → List Nat
  | .const => [0x00]
  | .var => [0x01]

structure GlobalType where
  val_type : ValType
  mutability : Mut

def GlobalType.serialize (g : GlobalType) : List Nat :=
  g.val_type.value :: g.mutability.serialize

inductive ImportDesc where
  | func (type_idx : Nat)
  | table (table_type : TableType)
  | mem (mem_type : MemType)
  | global (global_type : GlobalType)

/-- `impl WasmSerialize for ImportDesc`: tag `0x00..0x03` then payload. -/
def ImportDesc.serialize : ImportDesc → List Nat
  | .func type_idx => 0x00 :: lebSerializeU32 type_idx
  | .table table_type => 0x01 :: table_type.serialize
  | .mem mem_type => 0x02 :: mem_type.serialize
  | .global global_type => 0x03 :: global_type.serialize

structure Import where
  module_name : List Nat
  entity_name : List Nat
  desc : ImportDesc

def Import.serialize (i : Import) : List Nat :=
  serializeName i.module_name ++ serializeName i.entity_name ++ i.desc.serialize

inductive ExportDesc where
  | func (func_idx : Nat)
  | table (table_idx : Nat)
  | mem (mem_idx : Nat)
  | global (global_idx : Nat)

/-- `impl WasmSerialize for ExportDesc`: tag `0x00..0x03` then the index. -/
def ExportDesc.serialize : ExportDesc → List Nat
  | .func idx => 0x00 :: lebSerializeU32 idx
  | .table idx => 0x01 :: lebSerializeU32 idx
  | .mem idx => 0x02 :: lebSerializeU32 idx
  | .global idx => 0x03 :: lebSerializeU32 idx

structure Export where
  entity_name : List Nat
  desc : ExportDesc

def Export.serialize (e : Export) : List Nat :=
  serializeName e.entity_name ++ e.desc.serialize

/-- A Wasm constant expression: its already-encoded bytecode
(`impl WasmSerialize for Expr` just copies the bytes). -/
structure WasmExpr where
  bytecode : List Nat

structure Table where
  table_type : TableType

def Table.serialize (t : Table) : List Nat :=
  t.table_type.serialize

structure Mem where
  mem_type : MemType

def Mem.serialize (m : Mem) : List Nat :=
  m.mem_type.serialize

structure Global where
  global_type : GlobalType
  init_expr : WasmExpr

def Global.serialize (g : Global) : List Nat :=
  g.global_type.serialize ++ g.init_expr.bytecode

structure Elem where
  table_idx : Nat
  offset : WasmExpr
  content : List Nat

def Elem.serialize (e : Elem) : List Nat :=
  lebSerializeU32 e.table_idx ++ e.offset.bytecode ++
    serializeVec lebSerializeU32 e.content

structure Data where
  mem_idx : Nat
  offset : WasmExpr
  content : List Nat

def Data.serialize (d : Data) : List Nat :=
  lebSerializeU32 d.mem_idx ++ d.offset.bytecode ++
    (lebSerializeU32 d.content.length ++ d.content)

/-- A `Code` cell: `some bytes` once committed, `none` while only
registered (`serialize.rs` lines 456-469). -/
structure Code where
  func : Option (List Nat)

/-- `impl WasmSerialize for Code`: emit the body size and bytes, or fail
(the Rust code panics with "ICE: Some functions were registered but not
committed") when the cell is still `none`. -/
def Code.serialize : Code → Option (List Nat)
  | ⟨some bytes⟩ => some (lebSerializeU32 bytes.length ++ bytes)
  | ⟨none⟩ => none

/-- `serialize_section_content` (`serialize.rs` lines 94-102): LEB length
of the body then the body. -/
def serializeSectionContent (buf : List Nat) : List Nat :=
  lebSerializeU32 buf.length ++ buf

/-- `serialize_section` (`serialize.rs` lines 104-113): emit nothing when
the content slice is empty, else the section magic then the sized body. -/
def serializeSection (magic : Nat) (ser : α → List Nat) (content : List α) : List Nat :=
  if content.isEmpty then []
  else magic :: serializeSectionContent (serializeVec ser content)

structure TypeSection where
  content : List FuncType

def TypeSection.serialize (s : TypeSection) : List Nat :=
  serializeSection 1 FuncType.serialize s.content

structure ImportSection where
  content : List Import

def ImportSection.serialize (s : ImportSection) : List Nat :=
  serializeSection 2 Import.serialize s.content

structure FuncSection where
  content : List Nat

def FuncSection.serialize (s : FuncSection) : List Nat :=
  serializeSection 3 lebSerializeU32 s.content

structure TableSection where
  content : List Table

def TableSection.serialize (s : TableSection) : List Nat :=
  serializeSection 4 Table.serialize s.content

structure MemSection where
  content : List Mem

def MemSection.serialize (s : MemSection) : List Nat :=
  serializeSection 5 Mem.serialize s.content

structure GlobalSection where
  content : List Global

def GlobalSection.serialize (s : GlobalSection) : List Nat :=
  serializeSection 6 Global.serialize s.content

structure ExportSection where
  content : List Export

def ExportSection.serialize (s : ExportSection) : List Nat :=
  serializeSection 7 Export.serialize s.content

/-- The Start section holds an optional start-function index. -/
structure StartSection where
  start : Option Nat

/-- `impl WasmSerialize for StartSection` (`serialize.rs` lines 410-423):
emitted iff a start function was set, regardless of any emptiness notion. -/
def StartSection.serialize (s : StartSection) : List Nat :=
  match s.start with
  | some start_idx => 8 :: serializeSectionContent (lebSerializeU32 start_idx)
  | none => []

structure ElemSection where
  content : List Elem

def ElemSection.serialize (s : ElemSection) : List Nat :=
  serializeSection 9 Elem.serialize s.content

structure CodeSection where
  content : List Code

/-- The element loop of the Code section's `[T]` serialization: serialize
each entry in order, concatenating the emitted bytes; the first uncommitted
entry aborts (the Rust panic). -/
def serializeCodes : List Code → Option (List Nat)
  | [] => some []
  | c :: rest =>
    match c.serialize, serializeCodes rest with
    | some b, some bs => some (b ++ bs)
    | _, _ => none

/-- The Code section: like `serialize_section` with magic 10, but each
entry can fail (uncommitted `Code`), and the failure propagates. -/
def CodeSection.serialize (s : CodeSection) : Option (List Nat) :=
  if s.content.isEmpty then some []
  else (serializeCodes s.content).map fun bufs =>
    10 :: serializeSectionContent (lebSerializeU32 s.content.length ++ bufs)

structure DataSection where
  content : List Data

def DataSection.serialize (s : DataSection) : List Nat :=
  serializeSection 11 Data.serialize s.content

structure WasmModule where
  type_section : TypeSection
  import_section : ImportSection
  func_section : FuncSection
  table_section : TableSection
  mem_section : MemSection
  global_section : GlobalSection
  export_section : ExportSection
  start_section : StartSection
  elem_section : ElemSection
  code_section : CodeSection
  data_section : DataSection

/-- `impl WasmSerialize for WasmModule` (`serialize.rs` lines 43-62): the
magic header and version, then the eleven sections in order; an uncommitted
`Code` aborts the whole serialization (the Rust panic). -/
def WasmModule.serialize (m : WasmModule) : Option (List Nat) :=
  m.code_section.serialize.map fun codeBytes =>
    [0x00, 0x61, 0x73, 0x6D] ++ [0x01, 0x00, 0x00, 0x00] ++
    m.type_section.serialize ++ m.import_section.serialize ++
    m.func_section.serialize ++ m.table_section.serialize ++
    m.mem_section.serialize ++ m.global_section.serialize ++
    m.export_section.serialize ++ m.start_section.serialize ++
    m.elem_section.serialize ++ codeBytes ++ m.data_section.serialize

/-- C3: Serializing a `WasmModule` emits no bytes at all for a section
whose content is empty (for the Code section, the successful result
contributes no bytes), with the one exception that the Start section is
gated on the presence of a start function — emitted iff one was set —
rather than on emptiness. -/
theorem serialize_empty_section_gating (m : WasmModule) :
    (m.type_section.content = [] → m.type_section.serialize = []) ∧
    (m.import_section.content = [] → m.import_section.serialize = []) ∧
    (m.func_section.content = [] → m.func_section.serialize = []) ∧
    (m.table_section.content = [] → m.table_section.serialize = []) ∧
    (m.mem_section.content = [] → m.mem_section.serialize = []) ∧
    (m.global_section.content = [] → m.global_section.serialize = []) ∧
    (m.export_section.content = [] → m.export_section.serialize = []) ∧
    (m.elem_section.content = [] → m.elem_section.serialize = []) ∧
    (m.code_section.content = [] → m.code_section.serialize = some []) ∧
    (m.data_section.content = [] → m.data_section.serialize = []) ∧
    (m.start_section.serialize = [] ↔ m.start_section.start = none) := by
  refine ⟨?_, ?_, ?_, ?_, ?_, ?_, ?_, ?_, ?_, ?_, ?_⟩
  · intro h
    simp [TypeSection.serialize, serializeSection, h]
  · intro h
    simp [ImportSection.serialize, serializeSection, h]
  · intro h
    simp [FuncSection.serialize, serializeSection, h]
  · intro h
    simp [TableSection.serialize, serializeSection, h]
  · intro h
    simp [MemSection.serialize, serializeSection, h]
  · intro h
    simp [GlobalSection.serialize, serializeSection, h]
  · intro h
    simp [ExportSection.serialize, serializeSection, h]
  · intro h
    simp [ElemSection.serialize, serializeSection, h]
  · intro h
    simp [CodeSection.serialize, h]
  · intro h
    simp [DataSection.serialize, serializeSection, h]
  · cases hs : m.start_section.start with
    | none => simp [StartSection.serialize, hs]
    | some idx => simp [StartSection.serialize, hs]

/-- A module with every section empty and no start function. -/
def emptySectionsModule : WasmModule :=
  ⟨⟨[]⟩, ⟨[]⟩, ⟨[]⟩, ⟨[]⟩, ⟨[]⟩, ⟨[]⟩, ⟨[]⟩, ⟨none⟩, ⟨[]⟩, ⟨[]⟩, ⟨[]⟩⟩

/-- Witness for C3 at `emptySectionsModule`. -/
theorem serialize_empty_section_gating_witness :
    emptySectionsModule.type_section.serialize = [] ∧
    emptySectionsModule.import_section.serialize = [] ∧
    emptySectionsModule.func_section.serialize = [] ∧
    emptySectionsModule.table_section.serialize = [] ∧
    emptySectionsModule.mem_section.serialize = [] ∧
    emptySectionsModule.global_section.serialize = [] ∧
    emptySectionsModule.export_section.serialize = [] ∧
    emptySectionsModule.elem_section.serialize = [] ∧
    emptySectionsModule.code_section.serialize = some [] ∧
    emptySectionsModule.data_section.serialize = [] ∧
    emptySectionsModule.start_section.serialize = [] := by
  have h := serialize_empty_section_gating emptySectionsModule
  exact ⟨h.1 rfl, h.2.1 rfl, h.2.2.1 rfl, h.2.2.2.1 rfl, h.2.2.2.2.1 rfl,
    h.2.2.2.2.2.1 rfl, h.2.2.2.2.2.2.1 rfl, h.2.2.2.2.2.2.2.1 rfl,
    h.2.2.2.2.2.2.2.2.1 rfl, h.2.2.2.2.2.2.2.2.2.1 rfl,
    h.2.2.2.2.2.2.2.2.2.2.mpr rfl⟩

theorem serializeCodes_eq_none (l : List Code) (c : Code)
    (hc : c ∈ l) (hf : c.serialize = none) : serializeCodes l = none := by
  induction l with
  | nil => simp at hc
  | cons a rest ih =>
    rw [serializeCodes]
    rcases List.mem_cons.mp hc with h | h
    · subst h
      rw [hf]
    · rw [ih h]
      cases Code.serialize a <;> rfl

/-- C4: Serializing a module in which some `Code` entry is still `none` (a
function was registered but never committed) fails with the
internal-consistency panic — modelled as `none` — rather than producing
bytes. -/
theorem serialize_uncommitted_code_fails (m : WasmModule)
    (h : ∃ c ∈ m.code_section.content, c.func = none) :
    m.serialize = none := by
  obtain ⟨c, hc, hnone⟩ := h
  have hser : Code.serialize c = none := by
    cases c with
    | mk f =>
      cases f with
      | none => rfl
      | some b => simp at hnone
  have hmap : serializeCodes m.code_section.content = none :=
    serializeCodes_eq_none m.code_section.content c hc hser
  have hne : ¬ m.code_section.content.isEmpty := by
    cases hl : m.code_section.content with
    | nil => rw [hl] at hc; simp at hc
    | cons a rest => simp [hl]
  have hcode : m.code_section.serialize = none := by
    rw [CodeSection.serialize, if_neg hne, hmap]
    rfl
  rw [WasmModule.serialize, hcode]
  rfl

/-- A module whose single `Code` entry was registered but never
committed. -/
def uncommittedCodeModule : WasmModule :=
  ⟨⟨[]⟩, ⟨[]⟩, ⟨[0]⟩, ⟨[]⟩, ⟨[]⟩, ⟨[]⟩, ⟨[]⟩, ⟨none⟩, ⟨[]⟩, ⟨[⟨none⟩]⟩, ⟨[]⟩⟩

/-- Witness for C4 at `uncommittedCodeModule`. -/
theorem serialize_uncommitted_code_fails_witness :
    uncommittedCodeModule.serialize = none :=
  serialize_uncommitted_code_fails uncommittedCodeModule ⟨⟨none⟩, by simp [uncommittedCodeModule], rfl⟩

/-! ## The `Scratch` locals pool (`lib-wasmgen/src/scratch.rs`) -/

/-- Modelled from the spec: the `LocalsManager` tracks pre-declared
parameters and appended typed locals; `add` appends a local and returns its
`LocalIdx` (parameters come first in the index space). -/
structure LocalsManager where
  param_count : Nat
  locals : List ValType

/-- `LocalsManager::add`: append a typed local, returning its index. -/
def LocalsManager.add (lm : LocalsManager) (v : ValType) : LocalsManager × Nat :=
  ({ lm with locals := lm.locals ++ [v] }, lm.param_count + lm.locals.length)

/-- Embedding of `Scratch` (`scratch.rs` lines 6-16): four per-type buffers
of pooled local indices with their stack pointers. -/
structure Scratch where
  locals_builder : LocalsManager
  i32_buffer : List Nat
  i64_buffer : List Nat
  f32_buffer : List Nat
  f64_buffer : List Nat
  i32_idx : Nat
  i64_idx : Nat
  f32_idx : Nat
  f64_idx : Nat

/-- `Scratch::new` (`scratch.rs` lines 19-31): empty buffers, all stack
pointers zero. -/
def Scratch.new (lm : LocalsManager) : Scratch :=
  ⟨lm, [], [], [], [], 0, 0, 0, 0⟩

/-- `Scratch::push_impl` (`scratch.rs` lines 76-88): grow the buffer by a
fresh local when exhausted, return the entry at the stack pointer, and bump
the pointer.  Returns the new manager, buffer, pointer, and the returned
`LocalIdx`. -/
def pushImpl (lm : LocalsManager) (valtype : ValType) (buffer : List Nat) (idx : Nat) :
    LocalsManager × List Nat × Nat × Nat :=
  let grown :=
    if idx = buffer.length then
      let r := lm.add valtype
      (r.1, buffer ++ [r.2])
    else (lm, buffer)
  (grown.1, grown.2, idx + 1, (grown.2.getD idx 0))

/-- `Scratch::pop_impl` (`scratch.rs` lines 89-92): `assert!(*idx > 0)`
then decrement; the failed assertion is modelled as `none`. -/
def popImpl (idx : Nat) : Option Nat :=
  if 0 < idx then some (idx - 1) else none

def Scratch.push_i32 (s : Scratch) : Scratch × Nat :=
  let r := pushImpl s.locals_builder .i32 s.i32_buffer s.i32_idx
  ({ s with locals_builder := r.1, i32_buffer := r.2.1, i32_idx := r.2.2.1 }, r.2.2.2)

def Scratch.push_i64 (s : Scratch) : Scratch × Nat :=
  let r := pushImpl s.locals_builder .i64 s.i64_buffer s.i64_idx
  ({ s with locals_builder := r.1, i64_buffer := r.2.1, i64_idx := r.2.2.1 }, r.2.2.2)

def Scratch.push_f32 (s : Scratch) : Scratch × Nat :=
  let r := pushImpl s.locals_builder .f32 s.f32_buffer s.f32_idx
  ({ s with locals_builder := r.1, f32_buffer := r.2.1, f32_idx := r.2.2.1 }, r.2.2.2)

def Scratch.push_f64 (s : Scratch) : Scratch × Nat :=
  let r := pushImpl s.locals_builder .f64 s.f64_buffer s.f64_idx
  ({ s with locals_builder := r.1, f64_buffer := r.2.1, f64_idx := r.2.2.1 }, r.2.2.2)

def Scratch.pop_i32 (s : Scratch) : Option Scratch :=
  (popImpl s.i32_idx).map fun n => { s with i32_idx := n }

def Scratch.pop_i64 (s : Scratch) : Option Scratch :=
  (popImpl s.i64_idx).map fun n => { s with i64_idx := n }

def Scratch.pop_f32 (s : Scratch) : Option Scratch :=
  (popImpl s.f32_idx).map fun n => { s with f32_idx := n }

def Scratch.pop_f64 (s : Scratch) : Option Scratch :=
  (popImpl s.f64_idx).map fun n => { s with f64_idx := n }

/-- One push or pop call on a `Scratch` pool. -/
inductive ScratchOp where
  | pushI32
  | pushI64
  | pushF32
  | pushF64
  | popI32
  | popI64
  | popF32
  | popF64
deriving DecidableEq

/-- Execute one operation (pushes always succeed; pops can fail the
assertion). -/
def Scratch.step (s : Scratch) : ScratchOp → Option Scratch
  | .pushI32 => some (s.push_i32).1
  | .pushI64 => some (s.push_i64).1
  | .pushF32 => some (s.push_f32).1
  | .pushF64 => some (s.push_f64).1
  | .popI32 => s.pop_i32
  | .popI64 => s.pop_i64
  | .popF32 => s.pop_f32
  | .popF64 => s.pop_f64

/-- Execute a sequence of operations, stopping at the first failed
assertion. -/
def Scratch.run (s : Scratch) : List ScratchOp → Option Scratch
  | [] => some s
  | op :: rest =>
    match s.step op with
    | some s2 => s2.run rest
    | none => none

/-- Which pool an operation pushes to. -/
def pushTypeOf : ScratchOp → Option ValType
  | .pushI32 => some .i32
  | .pushI64 => some .i64
  | .pushF32 => some .f32
  | .pushF64 => some .f64
  | _ => none

/-- Which pool an operation pops from. -/
def popTypeOf : ScratchOp → Option ValType
  | .popI32 => some .i32
  | .popI64 => some .i64
  | .popF32 => some .f32
  | .popF64 => some .f64
  | _ => none

/-- Number of pushes to pool `t` in `ops`. -/
def pushCount (t : ValType) (ops : List ScratchOp) : Nat :=
  (ops.filter fun o => pushTypeOf o = some t).length

/-- Number of pops from pool `t` in `ops`. -/
def popCount (t : ValType) (ops : List ScratchOp) : Nat :=
  (ops.filter fun o => popTypeOf o = some t).length

/-- The stack pointer of pool `t`. -/
def Scratch.idxOf (s : Scratch) : ValType → Nat
  | .i32 => s.i32_idx
  | .i64 => s.i64_idx
  | .f32 => s.f32_idx
  | .f64 => s.f64_idx

theorem pop_i32_eq (s s2 : Scratch) (h : s.pop_i32 = some s2) :
    0 < s.i32_idx ∧ s2 = { s with i32_idx := s.i32_idx - 1 } := by
  rw [Scratch.pop_i32, popImpl] at h
  by_cases hp : 0 < s.i32_idx
  · rw [if_pos hp] at h
    simp at h
    exact ⟨hp, h.symm⟩
  · rw [if_neg hp] at h
    simp at h

theorem pop_i64_eq (s s2 : Scratch) (h : s.pop_i64 = some s2) :
    0 < s.i64_idx ∧ s2 = { s with i64_idx := s.i64_idx - 1 } := by
  rw [Scratch.pop_i64, popImpl] at h
  by_cases hp : 0 < s.i64_idx
  · rw [if_pos hp] at h
    simp at h
    exact ⟨hp, h.symm⟩
  · rw [if_neg hp] at h
    simp at h

theorem pop_f32_eq (s s2 : Scratch) (h : s.pop_f32 = some s2) :
    0 < s.f32_idx ∧ s2 = { s with f32_idx := s.f32_idx - 1 } := by
  rw [Scratch.pop_f32, popImpl] at h
  by_cases hp : 0 < s.f32_idx
  · rw [if_pos hp] at h
    simp at h
    exact ⟨hp, h.symm⟩
  · rw [if_neg hp] at h
    simp at h

theorem pop_f64_eq (s s2 : Scratch) (h : s.pop_f64 = some s2) :
    0 < s.f64_idx ∧ s2 = { s with f64_idx := s.f64_idx - 1 } := by
  rw [Scratch.pop_f64, popImpl] at h
  by_cases hp : 0 < s.f64_idx
  · rw [if_pos hp] at h
    simp at h
    exact ⟨hp, h.symm⟩
  · rw [if_neg hp] at h
    simp at h

theorem popCount_cons (t : ValType) (op : ScratchOp) (rest : List ScratchOp) :
    popCount t (op :: rest) = (if popTypeOf op = some t then 1 else 0) + popCount t rest := by
  rw [popCount, popCount, List.filter_cons]
  split <;> split <;> simp_all <;> omega

theorem pushCount_cons (t : ValType) (op : ScratchOp) (rest : List ScratchOp) :
    pushCount t (op :: rest) = (if pushTypeOf op = some t then 1 else 0) + pushCount t rest := by
  rw [pushCount, pushCount, List.filter_cons]
  split <;> split <;> simp_all <;> omega

theorem scratch_step_idx (s s2 : Scratch) (op : ScratchOp) (h : s.step op = some s2)
    (t : ValType) :
    s2.idxOf t + (if popTypeOf op = some t then 1 else 0) =
      s.idxOf t + (if pushTypeOf op = some t then 1 else 0) := by
  cases op with
  | pushI32 =>
    rw [Scratch.step] at h
    cases h
    cases t <;> simp [Scratch.push_i32, pushImpl, Scratch.idxOf, pushTypeOf, popTypeOf]
  | pushI64 =>
    rw [Scratch.step] at h
    cases h
    cases t <;> simp [Scratch.push_i64, pushImpl, Scratch.idxOf, pushTypeOf, popTypeOf]
  | pushF32 =>
    rw [Scratch.step] at h
    cases h
    cases t <;> simp [Scratch.push_f32, pushImpl, Scratch.idxOf, pushTypeOf, popTypeOf]
  | pushF64 =>
    rw [Scratch.step] at h
    cases h
    cases t <;> simp [Scratch.push_f64, pushImpl, Scratch.idxOf, pushTypeOf, popTypeOf]
  | popI32 =>
    rw [Scratch.step] at h
    obtain ⟨hp, hs2⟩ := pop_i32_eq s s2 h
    subst hs2
    cases t <;> simp [Scratch.idxOf, pushTypeOf, popTypeOf] <;> omega
  | popI64 =>
    rw [Scratch.step] at h
    obtain ⟨hp, hs2⟩ := pop_i64_eq s s2 h
    subst hs2
    cases t <;> simp [Scratch.idxOf, pushTypeOf, popTypeOf] <;> omega
  | popF32 =>
    rw [Scratch.step] at h
    obtain ⟨hp, hs2⟩ := pop_f32_eq s s2 h
    subst hs2
    cases t <;> simp [Scratch.idxOf, pushTypeOf, popTypeOf] <;> omega
  | popF64 =>
    rw [Scratch.step] at h
    obtain ⟨hp, hs2⟩ := pop_f64_eq s s2 h
    subst hs2
    cases t <;> simp [Scratch.idxOf, pushTypeOf, popTypeOf] <;> omega

theorem scratch_run_idx (ops : List ScratchOp) :
    ∀ (s s2 : Scratch), s.run ops = some s2 →
      ∀ t, s2.idxOf t + popCount t ops = s.idxOf t + pushCount t ops := by
  induction ops with
  | nil =>
    intro s s2 h t
    rw [Scratch.run] at h
    cases h
    rfl
  | cons op rest ih =>
    intro s s2 h t
    rw [Scratch.run] at h
    cases hstep : s.step op with
    | none => rw [hstep] at h; cases h
    | some smid =>
      rw [hstep] at h
      have hrest := ih smid s2 h t
      have hdelta := scratch_step_idx s smid op hstep t
      rw [popCount_cons, pushCount_cons]
      omega

/-- C8: Every imbalance of `Scratch` push/pop operations is detected as an
assertion-class failure: calling `pop_i32`/`pop_i64`/`pop_f32`/`pop_f64`
when the corresponding pool's stack pointer is zero fails the assertion
(modelled as `none`), and after any balanced sequence of pushes and pops
that runs without failure, all four pool stack pointers are back to
zero. -/
theorem scratch_pop_assert_and_balance (ops : List ScratchOp) (lm : LocalsManager)
    (s2 : Scratch) (hrun : (Scratch.new lm).run ops = some s2)
    (hbal : ∀ t, pushCount t ops = popCount t ops) :
    (∀ s : Scratch, s.i32_idx = 0 → s.pop_i32 = none) ∧
    (∀ s : Scratch, s.i64_idx = 0 → s.pop_i64 = none) ∧
    (∀ s : Scratch, s.f32_idx = 0 → s.pop_f32 = none) ∧
    (∀ s : Scratch, s.f64_idx = 0 → s.pop_f64 = none) ∧
    (s2.i32_idx = 0 ∧ s2.i64_idx = 0 ∧ s2.f32_idx = 0 ∧ s2.f64_idx = 0) := by
  have hidx := scratch_run_idx ops (Scratch.new lm) s2 hrun
  refine ⟨?_, ?_, ?_, ?_, ?_, ?_, ?_, ?_⟩
  · intro s h
    simp [Scratch.pop_i32, popImpl, h]
  · intro s h
    simp [Scratch.pop_i64, popImpl, h]
  · intro s h
    simp [Scratch.pop_f32, popImpl, h]
  · intro s h
    simp [Scratch.pop_f64, popImpl, h]
  · have h1 := hidx .i32
    have h2 := hbal .i32
    simp [Scratch.idxOf, Scratch.new] at h1
    omega
  · have h1 := hidx .i64
    have h2 := hbal .i64
    simp [Scratch.idxOf, Scratch.new] at h1
    omega
  · have h1 := hidx .f32
    have h2 := hbal .f32
    simp [Scratch.idxOf, Scratch.new] at h1
    omega
  · have h1 := hidx .f64
    have h2 := hbal .f64
    simp [Scratch.idxOf, Scratch.new] at h1
    omega

/-- Witness for C8 at the balanced sequence
`push_i32; push_f64; pop_f64; pop_i32` from a fresh pool. -/
theorem scratch_pop_assert_and_balance_witness :
    (Scratch.new ⟨2, []⟩).run [.pushI32, .pushF64, .popF64, .popI32] =
      some ⟨⟨2, [.i32, .f64]⟩, [2], [], [], [3], 0, 0, 0, 0⟩ ∧
    ((⟨⟨2, [.i32, .f64]⟩, [2], [], [], [3], 0, 0, 0, 0⟩ : Scratch).i32_idx = 0 ∧
     (⟨⟨2, [.i32, .f64]⟩, [2], [], [], [3], 0, 0, 0, 0⟩ : Scratch).i64_idx = 0 ∧
     (⟨⟨2, [.i32, .f64]⟩, [2], [], [], [3], 0, 0, 0, 0⟩ : Scratch).f32_idx = 0 ∧
     (⟨⟨2, [.i32, .f64]⟩, [2], [], [], [3], 0, 0, 0, 0⟩ : Scratch).f64_idx = 0) :=
  ⟨rfl,
   (scratch_pop_assert_and_balance [.pushI32, .pushF64, .popF64, .popI32] ⟨2, []⟩
      ⟨⟨2, [.i32, .f64]⟩, [2], [], [], [3], 0, 0, 0, 0⟩ rfl
      (fun t => by cases t <;> rfl)).2.2.2.2⟩

/-! ## `VarLocId` (`lib-frontend-estree/src/estree.rs` lines 327-331) -/

/-- Embedding of `VarLocId`: `{depth: usize, index: usize}` (usize becomes
`Nat`). -/
structure VarLocId where
  depth : Nat
  index : Nat

/-- The comparison generated by `#[derive(PartialOrd, Ord)]` on a struct:
compare the fields in declaration order — `depth` first, then `index`. -/
def VarLocId.cmp (a b : VarLocId) : Ordering :=
  (compare a.depth b.depth).then (compare a.index b.index)

/-- The derived strict order: `a < b` iff the derived comparison returns
`Less`. -/
def VarLocId.lt (a b : VarLocId) : Prop :=
  VarLocId.cmp a b = .lt

/-- C9: `VarLocId` identity is structural (two `VarLocId`s are equal iff
their `depth` and `index` fields are equal, which is what
`#[derive(PartialEq, Eq)]` produces) and the derived ordering is
lexicographic: `a < b` iff `a.depth < b.depth`, or `a.depth = b.depth` and
`a.index < b.index`. -/
theorem varLocId_structural_eq_and_lex_order (a b : VarLocId) :
    (a = b ↔ a.depth = b.depth ∧ a.index = b.index) ∧
    (VarLocId.lt a b ↔
      a.depth < b.depth ∨ (a.depth = b.depth ∧ a.index < b.index)) := by
  constructor
  · constructor
    · intro h
      exact ⟨congrArg VarLocId.depth h, congrArg VarLocId.index h⟩
    · intro h
      cases a
      cases b
      simp_all
  · rw [VarLocId.lt, VarLocId.cmp]
    rcases Nat.lt_trichotomy a.depth b.depth with h | h | h
    · have hc : compare a.depth b.depth = .lt := by
        rw [Nat.compare_eq_lt]
        exact h
      rw [hc]
      simp [Ordering.then]
      omega
    · have hc : compare a.depth b.depth = .eq := by
        rw [Nat.compare_eq_eq]
        exact h
      rw [hc]
      simp only [Ordering.then]
      rw [Nat.compare_eq_lt]
      constructor
      · intro hi
        exact Or.inr ⟨h, hi⟩
      · intro hor
        rcases hor with hd | ⟨_, hi⟩
        · omega
        · exact hi
    · have hc : compare a.depth b.depth = .gt := by
        rw [Nat.compare_eq_gt]
        exact h
      rw [hc]
      simp [Ordering.then]
      omega
